import Mathlib

/-!
Verification development for the BPER bank-statement ingestion parser
(`src/ingestion/bper_parser_improved.py`, class `BPERParser`).

The Python code is shallowly embedded here:

* Python strings are `List Char` (`Str`); all the regexes the parser uses
  act on ASCII text, so the ASCII readings of `\d`, `\s` and `str.lower`
  are used.
* Python `float` amounts are modelled as `ℚ` read exactly in decimal:
  every money value the parser manipulates is a decimal numeral, and the
  claims under study are about the decimal values, not about binary
  rounding of IEEE doubles.
* `datetime.date` is a `(year, month, day)` triple; `strptime('%d/%m/%y')`
  is embedded including its pivot (two-digit years 00–68 read as 2000–2068,
  69–99 as 1969–1999) and its day/month range checks.
* `list.sort(key=...)` is embedded by a stable insertion sort, together
  with the CPython behaviour that comparing `None` with a `date` (which
  happens as soon as the list has at least two elements and some key is
  `None`) raises `TypeError`; that outcome is the `Except.error` branch of
  `extract_all_transactions`.

Definitions keep the source's (snake_case) names, with the leading
underscore of private methods dropped.
-/

attribute [local semireducible] Rat.add Rat.mul Rat.sub Rat.inv Rat.ofScientific

namespace BPER

/-- Python strings, modelled as lists of characters. -/
abbrev Str := List Char

/-- Value of an ASCII digit character. -/
def digitVal (c : Char) : Nat := c.toNat - 48

/-- Natural number denoted by a string of decimal digits (most significant first). -/
def ofDigits (s : Str) : Nat := s.foldl (fun a c => 10 * a + digitVal c) 0

/-- Python `\s` / `str.strip` whitespace, ASCII range. -/
def isSpaceB (c : Char) : Bool :=
  c == ' ' || c == '\t' || c == '\n' || c == '\r' || c == '\x0b' || c == '\x0c'

/-- Python `str.strip()`. -/
def pyStrip (s : Str) : Str :=
  ((s.dropWhile isSpaceB).reverse.dropWhile isSpaceB).reverse

/-- Unsigned core of Python `float(s)` on the decimal strings reachable in
this parser: digits with at most one `.` and at least one digit (the
exponent, `inf`/`nan` and underscore forms are never produced by
`parse_amount`'s preprocessing, whose output alphabet is digits and `.`).
`none` models `ValueError`. -/
def pyFloatCore (r : Str) : Option ℚ :=
  let ip := r.takeWhile Char.isDigit
  match r.drop ip.length with
  | [] => if ip.isEmpty then none else some (ofDigits ip)
  | c :: r2 =>
    if c = '.' then
      let fp := r2.takeWhile Char.isDigit
      if r2.drop fp.length ≠ ([] : Str) then none
      else if ip.isEmpty && fp.isEmpty then none
      else some ((ofDigits ip : ℚ) + (ofDigits fp : ℚ) / (10 : ℚ) ^ fp.length)
    else none

/-- Python `float(s)`: an optional sign and then the unsigned decimal core. -/
def pyFloat (s : Str) : Option ℚ :=
  match s with
  | [] => pyFloatCore []
  | c :: r =>
    if c = '-' then (pyFloatCore r).map (fun q => -q)
    else if c = '+' then pyFloatCore r
    else pyFloatCore (c :: r)

/-- The preprocessing of `BPERParser._parse_amount`: strip, drop every `'€'`,
strip again, remove every `'.'` (thousands separator) and turn `','` into
`'.'` (decimal separator). -/
def pyTransform (s : Str) : Str :=
  let t := pyStrip ((pyStrip s).filter (fun c => !(c == '€')))
  (t.filter (fun c => !(c == '.'))).map (fun c => if c == ',' then '.' else c)

/-- `BPERParser._parse_amount`: Italian-format monetary token to number;
an empty/blank token, or one whose transformed form fails `float`, gives `0.0`. -/
def parse_amount (s : Str) : ℚ :=
  if pyStrip s = [] then 0 else (pyFloat (pyTransform s)).getD 0

/-- Calendar date (`datetime.date`): year, month, day. -/
structure Date where
  year : Nat
  month : Nat
  day : Nat
deriving DecidableEq

/-- Gregorian leap-year rule, as `datetime` implements it. -/
def isLeap (y : Nat) : Bool := y % 4 == 0 && (y % 100 != 0 || y % 400 == 0)

/-- Day count of month `m` of year `y`. -/
def daysInMonth (y m : Nat) : Nat :=
  if m == 2 then (if isLeap y then 29 else 28)
  else if m == 4 || m == 6 || m == 9 || m == 11 then 30 else 31

/-- Century resolution performed by `BPERParser._parse_date_short`:
`strptime('%y')` maps 00–68 to 2000–2068 and 69–99 to 1969–1999, and the
method then subtracts 100 years whenever the result exceeds 2030. -/
def resolveTwoDigitYear (yy : Nat) : Nat :=
  let y0 := if yy ≤ 68 then 2000 + yy else 1900 + yy
  if y0 > 2030 then y0 - 100 else y0

/-- `BPERParser._parse_date_short`: parse `DD/MM/YY` (the shape every call
site guarantees via a `\d{2}/\d{2}/\d{2}` regex group), with `strptime`'s
range validation; any failure is absorbed into `none`. The `dt.replace`
step cannot itself fail: for `yy` in 31–68 the years `2000+yy` and
`1900+yy` agree on leapness, so a valid 29 February stays valid. -/
def parse_date_short (s : Str) : Option Date :=
  match s with
  | [a, b, s1, c, d, s2, e, f] =>
    if s1 = '/' ∧ s2 = '/' ∧
        (a.isDigit && b.isDigit && c.isDigit && d.isDigit && e.isDigit && f.isDigit) then
      let dd := 10 * digitVal a + digitVal b
      let mm := 10 * digitVal c + digitVal d
      let yy := 10 * digitVal e + digitVal f
      let y0 := if yy ≤ 68 then 2000 + yy else 1900 + yy
      if 1 ≤ mm ∧ mm ≤ 12 ∧ 1 ≤ dd ∧ dd ≤ daysInMonth y0 mm then
        some ⟨resolveTwoDigitYear yy, mm, dd⟩
      else none
    else none
  | _ => none

/-- Character class `[\d.]` of the money-token pattern `([\d.]+,\d{2})`. -/
def isDigitDot (c : Char) : Bool := c.isDigit || c == '.'

/-- Match of `([\d.]+,\d{2})` anchored at the start of `s`: the greedy
`[\d.]+` run, a comma, two digits. Returns the token and the remainder.
Backtracking cannot help this pattern (the classes `[\d.]`, `,`, `\d` are
disjoint in the relevant positions), so maximal munch is exact. -/
def matchMoney (s : Str) : Option (Str × Str) :=
  let run := s.takeWhile isDigitDot
  if run.isEmpty then none
  else
    match s.drop run.length with
    | c :: d1 :: d2 :: rest =>
      if c = ',' ∧ d1.isDigit ∧ d2.isDigit then some (run ++ [c, d1, d2], rest) else none
    | _ => none

/-- Fuelled scanner behind `re.findall(r'([\d.]+,\d{2})', line)`: leftmost,
non-overlapping matches; on failure the start position advances by one. -/
def findAmountsAux : Nat → Str → List Str
  | 0, _ => []
  | _ + 1, [] => []
  | fuel + 1, c :: cs =>
    match matchMoney (c :: cs) with
    | some (tok, rest) => tok :: findAmountsAux fuel rest
    | none => findAmountsAux fuel cs

/-- `re.findall(r'([\d.]+,\d{2})', s)`. -/
def findAmounts (s : Str) : List Str := findAmountsAux s.length s

/-- Python `s.replace(pat, '', 1)`: remove the first occurrence of `pat`. -/
def removeFirst (pat : Str) : Str → Str
  | [] => []
  | c :: cs => if pat.isPrefixOf (c :: cs) then (c :: cs).drop pat.length else c :: removeFirst pat cs

/-- Index of the first occurrence of `pat` in a string, if any. -/
def firstIndexOf (pat : Str) : Str → Option Nat
  | [] => if pat.isEmpty then some 0 else none
  | c :: cs => if pat.isPrefixOf (c :: cs) then some 0 else (firstIndexOf pat cs).map (· + 1)

/-- Python `s.find(pat)`: first index, or `-1`. -/
def pyFind (s pat : Str) : Int :=
  match firstIndexOf pat s with
  | some i => (i : Int)
  | none => -1

/-- Result dictionary of `BPERParser._parse_transaction_amounts`. -/
structure TransAmounts where
  uscita : Option ℚ
  entrata : Option ℚ
  importo_netto : ℚ
  descrizione : Str
deriving DecidableEq

/-- Python truthiness of an optional float (`if entrata:`): `None` and `0.0`
are falsy. -/
def optTruthy : Option ℚ → Bool
  | none => false
  | some v => decide (v ≠ 0)

/-- Outflow/inflow pair of `BPERParser._parse_transaction_amounts`: when the
first token's `line.find` offset exceeds the fixed threshold 20 the first
token is the inflow (and any second token is ignored); otherwise the first
token is the outflow and a second token, if present, the inflow. -/
def uePair (line : Str) : Option ℚ × Option ℚ :=
  match findAmounts line with
  | [] => (none, none)
  | a :: rest =>
    if 20 < pyFind line a then (none, some (parse_amount a))
    else (some (parse_amount a),
      match rest with
      | [] => none
      | b :: _ => some (parse_amount b))

/-- `BPERParser._parse_transaction_amounts`: extract the money tokens of a
transaction-start line remainder, remove them to obtain the description,
classify them as outflow/inflow (`uePair`), and compute the net amount
(`entrata` if truthy, else `-uscita` if truthy, else `0`). -/
def parse_transaction_amounts (line : Str) : TransAmounts :=
  let amounts := findAmounts line
  let description := amounts.foldl (fun d a => removeFirst a d) line
  let ue := uePair line
  let netto : ℚ :=
    if optTruthy ue.2 then (ue.2).getD 0
    else if optTruthy ue.1 then -((ue.1).getD 0)
    else 0
  { uscita := ue.1, entrata := ue.2, importo_netto := netto, descrizione := pyStrip description }

/-- Transaction record dictionary built by
`BPERParser._extract_transactions_from_page` (and completed by
`_extract_all_transactions`, which assigns `numero_progressivo`). -/
structure Trans where
  data_transazione : Option Date
  data_valuta : Option Date
  importo_uscita : Option ℚ
  importo_entrata : Option ℚ
  importo : ℚ
  descrizione : Str
  tipo_movimento : Str
  pagina : Nat
  categoria_suggerita : Str
  numero_progressivo : Nat
deriving DecidableEq

/-- Movement-type label: `'ENTRATA' if importo_netto > 0 else 'USCITA'`. -/
def tipoOf (netto : ℚ) : Str :=
  if 0 < netto then "ENTRATA".toList else "USCITA".toList

/-- Python `page_text.split('\n')`. -/
def splitLines : Str → List Str
  | [] => [[]]
  | c :: cs =>
    if c = '\n' then [] :: splitLines cs
    else
      match splitLines cs with
      | [] => [[c]]
      | l :: ls => (c :: l) :: ls

/-- Match, somewhere after the current position, of a sequence of literal
words separated by `\s+`. The generic engine behind the header pattern
`DATA\s+VALUTA\s+USCITE\s+ENTRATE\s+DESCRIZIONE`: since each literal starts
with a non-space character, greedy whitespace munching is exact. -/
def matchLitWs : List Str → Str → Bool
  | [], _ => true
  | [w], s => w.isPrefixOf s
  | w :: ws, s =>
    w.isPrefixOf s &&
      (let r := s.drop w.length
       !(r.takeWhile isSpaceB).isEmpty && matchLitWs ws (r.dropWhile isSpaceB))

/-- The five column labels of the transaction-table header pattern. -/
def headerWords : List Str :=
  ["DATA".toList, "VALUTA".toList, "USCITE".toList, "ENTRATE".toList, "DESCRIZIONE".toList]

/-- `re.search(r'DATA\s+VALUTA\s+USCITE\s+ENTRATE\s+DESCRIZIONE', line)`. -/
def headerSearch : Str → Bool
  | [] => matchLitWs headerWords []
  | c :: cs => matchLitWs headerWords (c :: cs) || headerSearch cs

/-- Python `needle in hay` for strings. -/
def containsSub (needle : Str) : Str → Bool
  | [] => needle.isEmpty
  | c :: cs => needle.isPrefixOf (c :: cs) || containsSub needle cs

/-- Table-footer test: `'Dati da utilizzare' in line or 'Mod. 05.13.0011' in line`. -/
def isFooter (line : Str) : Bool :=
  containsSub ("Dati da utilizzare".toList) line || containsSub ("Mod. 05.13.0011".toList) line

/-- `re.match(r'\d{2}/\d{2}/\d{2}\s+[\d.,]+\s+SALDO', line)`: the running
balance rows the reconstructor discards. -/
def saldoRow (s : Str) : Bool :=
  match s with
  | a :: b :: '/' :: c :: d :: '/' :: e :: f :: rest =>
    a.isDigit && b.isDigit && c.isDigit && d.isDigit && e.isDigit && f.isDigit &&
      (!(rest.takeWhile isSpaceB).isEmpty &&
        (let r1 := rest.dropWhile isSpaceB
         let run := r1.takeWhile (fun ch => ch.isDigit || ch == '.' || ch == ',')
         !run.isEmpty &&
           (let r2 := r1.drop run.length
            !(r2.takeWhile isSpaceB).isEmpty &&
              ("SALDO".toList.isPrefixOf (r2.dropWhile isSpaceB)))))
  | _ => false

/-- `re.match(r'^(\d{2}/\d{2}/\d{2})\s+(\d{2}/\d{2}/\d{2})\s+(.+)', line)`:
the two date groups and the rest of a transaction-start line. The final
`\s+(.+)` needs one whitespace and then at least one character; when
everything after the second date is whitespace, the regex backtracks one
step and group 3 is a single space, provided at least two characters remain. -/
def transStart (s : Str) : Option (Str × Str × Str) :=
  match s with
  | a :: b :: '/' :: c :: d :: '/' :: e :: f :: rest =>
    if a.isDigit && b.isDigit && c.isDigit && d.isDigit && e.isDigit && f.isDigit then
      if (rest.takeWhile isSpaceB).isEmpty then none
      else
        match rest.dropWhile isSpaceB with
        | a2 :: b2 :: '/' :: c2 :: d2 :: '/' :: e2 :: f2 :: rest2 =>
          if a2.isDigit && b2.isDigit && c2.isDigit && d2.isDigit && e2.isDigit && f2.isDigit then
            if (rest2.takeWhile isSpaceB).isEmpty then none
            else
              let content := rest2.dropWhile isSpaceB
              let d1 : Str := [a, b, '/', c, d, '/', e, f]
              let d2s : Str := [a2, b2, '/', c2, d2, '/', e2, f2]
              if content ≠ ([] : Str) then some (d1, d2s, content)
              else if 2 ≤ rest2.length then
                some (d1, d2s, match rest2.getLast? with | some ch => [ch] | none => [])
              else none
          else none
        | _ => none
    else none
  | _ => none

/-- Loop body of `_extract_transactions_from_page` over the table's line
range: strip each line, skip blank lines and `SALDO` rows, start a new
record at a two-date line (flushing the one in progress), and append any
other line to the in-progress record's description. -/
def processLines (pageNum : Nat) : List Str → Option Trans → List Trans
  | [], cur => cur.toList
  | l :: ls, cur =>
    let line := pyStrip l
    if line = ([] : Str) then processLines pageNum ls cur
    else if saldoRow line then processLines pageNum ls cur
    else
      match transStart line with
      | some (d1, d2, resto) =>
        let td := parse_transaction_amounts resto
        let newT : Trans :=
          { data_transazione := parse_date_short d1
            data_valuta := parse_date_short d2
            importo_uscita := td.uscita
            importo_entrata := td.entrata
            importo := td.importo_netto
            descrizione := td.descrizione
            tipo_movimento := tipoOf td.importo_netto
            pagina := pageNum
            categoria_suggerita := []
            numero_progressivo := 0 }
        cur.toList ++ processLines pageNum ls (some newT)
      | none =>
        match cur with
        | some t => processLines pageNum ls (some { t with descrizione := t.descrizione ++ ' ' :: line })
        | none => processLines pageNum ls none

/-- Start index of the table body: one past the first header line. -/
def findHeaderStart : List Str → Option Nat
  | [] => none
  | l :: ls => if headerSearch l then some 1 else (findHeaderStart ls).map (· + 1)

/-- Offset, within the lines after the header, of the first footer line
(length of the whole suffix when there is none). -/
def findEndOffset : List Str → Nat
  | [] => 0
  | l :: ls => if isFooter l then 0 else findEndOffset ls + 1

/-- Python `re.sub(r'\s+', ' ', d)`: collapse every whitespace run to one space. -/
def collapseWsAux : Bool → Str → Str
  | _, [] => []
  | prev, c :: cs =>
    if isSpaceB c then (if prev then collapseWsAux true cs else ' ' :: collapseWsAux true cs)
    else c :: collapseWsAux false cs

/-- Whitespace collapsing, starting outside a run. -/
def collapseWs (s : Str) : Str := collapseWsAux false s

/-- Whole-suffix match of `-RIF\.\s*\d+/\d+$`. -/
def rifSuffix (s : Str) : Bool :=
  "-RIF.".toList.isPrefixOf s &&
    (let r := (s.drop 5).dropWhile isSpaceB
     let d1 := r.takeWhile Char.isDigit
     !d1.isEmpty &&
       (match r.drop d1.length with
        | '/' :: r2 =>
          let d2 := r2.takeWhile Char.isDigit
          !d2.isEmpty && (r2.drop d2.length).isEmpty
        | _ => false))

/-- `re.sub(r'-RIF\.\s*\d+/\d+$', '', d)`: drop the leftmost suffix matching
the legacy reference-number pattern. -/
def stripRifGo : Str → Str
  | [] => []
  | c :: cs => if rifSuffix (c :: cs) then [] else c :: stripRifGo cs

/-- `BPERParser._clean_description`. -/
def clean_description (d : Str) : Str := pyStrip (stripRifGo (collapseWs d))

/-- Python `str.lower()` on the ASCII range (the category keywords are ASCII). -/
def pyLower (s : Str) : Str :=
  s.map (fun c => if 65 ≤ c.toNat && c.toNat ≤ 90 then Char.ofNat (c.toNat + 32) else c)

/-- Category table of `BPERParser._suggest_category`, in declaration order
(Python dicts preserve insertion order). -/
def categoriesTable : List (Str × List Str) :=
  [ ("Affitto".toList, ["affitto".toList, "canone affitto".toList, "fitto".toList]),
    ("Stipendio".toList, ["stipendio".toList, "bonifico o/c".toList, "bonifico sepa".toList]),
    ("Utenze".toList, ["italia power".toList, "gas".toList, "luce".toList, "energia".toList]),
    ("PayPal".toList, ["paypal".toList]),
    ("Commissioni".toList, ["commissioni".toList, "canone mensile".toList, "spese su prelievo".toList]),
    ("Prelievo".toList, ["prel. atm".toList, "prelievo atm".toList]),
    ("Spesa Alimentari".toList, ["supermercato".toList, "conad".toList]),
    ("Trasporti".toList, ["atac".toList, "trenitalia".toList, "unicocampania".toList]),
    ("Ristorazione".toList, ["bar".toList, "caffetterie".toList, "pizzeria".toList, "ristorante".toList]),
    ("Salute".toList, ["farmacia".toList, "diagnostica".toList]),
    ("Shopping".toList, ["libraccio".toList, "klarna".toList]),
    ("Carburante".toList, ["stazione energas".toList]),
    ("Servizi".toList, ["glovo".toList, "sharenow".toList]) ]

/-- Default category label. -/
def altroLabel : Str := "Altro".toList

/-- Nested loop of `_suggest_category`: first category one of whose keywords
is a substring of the lowered description wins; otherwise `'Altro'`. -/
def catLoop (lower : Str) : List (Str × List Str) → Str
  | [] => altroLabel
  | (cat, kws) :: rest => if kws.any (fun k => containsSub k lower) then cat else catLoop lower rest

/-- `BPERParser._suggest_category`. -/
def suggest_category (d : Str) : Str := catLoop (pyLower d) categoriesTable

/-- `BPERParser._extract_transactions_from_page`: locate the table, run the
line loop, then clean each description and attach a suggested category. -/
def extract_transactions_from_page (pageText : Str) (pageNum : Nat) : List Trans :=
  let lines := splitLines pageText
  match findHeaderStart lines with
  | none => []
  | some start =>
    let body := lines.drop start
    let seg := body.take (findEndOffset body)
    (processLines pageNum seg none).map (fun t =>
      let d := clean_description t.descrizione
      { t with descrizione := d, categoria_suggerita := suggest_category d })

/-- Sort key: the record's transaction date (only used on records whose date
is present; `extract_all_transactions` errors out before comparing a `None`). -/
def dateKey (t : Trans) : Date := t.data_transazione.getD ⟨0, 0, 0⟩

/-- Strict ordering of `datetime.date`: lexicographic on (year, month, day). -/
def dateLT (a b : Date) : Prop :=
  a.year < b.year ∨ (a.year = b.year ∧ (a.month < b.month ∨ (a.month = b.month ∧ a.day < b.day)))

instance instDecDateLT : ∀ a b : Date, Decidable (dateLT a b) := fun a b => by
  unfold dateLT
  exact inferInstance

/-- Stable insertion: a new record goes after every strictly earlier record
and before the first record that is not strictly earlier, so records with
equal dates keep their input order (CPython's `list.sort` is stable). -/
def insertByDate (t : Trans) : List Trans → List Trans
  | [] => [t]
  | u :: us => if dateLT (dateKey u) (dateKey t) then u :: insertByDate t us else t :: u :: us

/-- Stable sort by transaction date, modelling `list.sort(key=...)`. -/
def sortByDate : List Trans → List Trans
  | [] => []
  | t :: ts => insertByDate t (sortByDate ts)

/-- Numbering pass: `numero_progressivo := n, n+1, ...` down the list. -/
def numberFrom (n : Nat) : List Trans → List Trans
  | [] => []
  | t :: ts => { t with numero_progressivo := n } :: numberFrom (n + 1) ts

/-- Progressive numbering 1..N of `_extract_all_transactions`. -/
def numberTrans (ts : List Trans) : List Trans := numberFrom 1 ts

/-- Concatenation, in page order, of every page's records (pages are
numbered from 1, `enumerate(page_texts, 1)`). -/
def allRecords (pages : List Str) : List Trans :=
  (pages.enum.map (fun p => extract_transactions_from_page p.2 (p.1 + 1))).flatten

/-- `BPERParser._extract_all_transactions`: concatenate the per-page lists,
sort by `data_transazione`, then number 1..N. CPython's `list.sort` raises
`TypeError` as soon as it compares a `None` key with anything (which it
must once the list has two or more elements and some key is `None`); that
exception is the `error` branch, and it propagates out of `parse` as a
document-level failure. -/
def extract_all_transactions (pages : List Str) : Except Unit (List Trans) :=
  let all := allRecords pages
  if 2 ≤ all.length ∧ all.any (fun t => t.data_transazione.isNone) then Except.error ()
  else Except.ok (numberTrans (sortByDate all))

/-- Per-category rollup (`stats['categorie'][cat]`). -/
structure CatStat where
  numero : Nat
  totale : ℚ
  transazioni : List Nat
deriving DecidableEq

/-- Statistics dictionary of `BPERParser._calculate_statistics` (the
`categorie` dict is an insertion-ordered association list, as in Python). -/
structure Stats where
  numero_transazioni : Nat
  numero_entrate : Nat
  numero_uscite : Nat
  totale_entrate : ℚ
  totale_uscite : ℚ
  saldo_movimento : ℚ
  media_entrate : ℚ
  media_uscite : ℚ
  max_entrata : ℚ
  max_uscita : ℚ
  categorie : List (Str × CatStat)
deriving DecidableEq

/-- Python `round(x, 2)` on the exact decimal model: round half to even at
two decimal places. -/
def pyRound2 (q : ℚ) : ℚ :=
  let s := q * 100
  let f := ⌊s⌋
  let r := s - f
  let n : ℤ := if r < 1/2 then f else if 1/2 < r then f + 1 else if Even f then f else f + 1
  (n : ℚ) / 100

/-- Python `max` of a list known nonempty (the `[]` branch is unreachable at
every use, both guarded by a positive count). -/
def pyMax : List ℚ → ℚ
  | [] => 0
  | x :: xs => xs.foldl max x

/-- Python `min` of a list known nonempty. -/
def pyMin : List ℚ → ℚ
  | [] => 0
  | x :: xs => xs.foldl min x

/-- Update of the `categorie` dict for one record: existing key updated in
place (insertion order kept), new key appended. -/
def upsertCat (cat : Str) (imp : ℚ) (num : Nat) :
    List (Str × CatStat) → List (Str × CatStat)
  | [] => [(cat, { numero := 1, totale := imp, transazioni := [num] })]
  | (c, st) :: rest =>
    if c = cat then
      (c, { numero := st.numero + 1, totale := st.totale + imp,
            transazioni := st.transazioni ++ [num] }) :: rest
    else (c, st) :: upsertCat cat imp num rest

/-- Per-category rollup loop of `_calculate_statistics` (every record
carries its `categoria_suggerita`, so the Python `.get(..., 'Altro')`
default never fires on records this parser builds). -/
def rollupCats (ts : List Trans) : List (Str × CatStat) :=
  ts.foldl (fun cats t => upsertCat t.categoria_suggerita t.importo t.numero_progressivo cats) []

/-- `BPERParser._calculate_statistics`: `none` models the empty dict the
method returns for an empty record list; otherwise global counts and sums,
inflow/outflow sub-population averages and extremes (left at `0` when the
sub-population is empty), and the per-category rollup. -/
def calculate_statistics (ts : List Trans) : Option Stats :=
  if ts = [] then none
  else
    let ne := ts.countP (fun t => decide (0 < t.importo))
    let nu := ts.countP (fun t => decide (t.importo < 0))
    let totE := ((ts.filter (fun t => decide (0 < t.importo))).map (fun t => t.importo)).sum
    let totU := |((ts.filter (fun t => decide (t.importo < 0))).map (fun t => t.importo)).sum|
    some
      { numero_transazioni := ts.length
        numero_entrate := ne
        numero_uscite := nu
        totale_entrate := totE
        totale_uscite := totU
        saldo_movimento := (ts.map (fun t => t.importo)).sum
        media_entrate := if 0 < ne then pyRound2 (totE / ne) else 0
        media_uscite := if 0 < nu then pyRound2 (totU / nu) else 0
        max_entrata := if 0 < ne then pyMax ((ts.filter (fun t => decide (0 < t.importo))).map (fun t => t.importo)) else 0
        max_uscita := if 0 < nu then |pyMin ((ts.filter (fun t => decide (t.importo < 0))).map (fun t => t.importo))| else 0
        categorie := rollupCats ts }

/-! ## Theorems -/

/-- Two-digit rendering of a number below 100, most significant digit first. -/
def fmt2 (n : Nat) : Str := [Nat.digitChar (n / 10), Nat.digitChar (n % 10)]

lemma digitChar_isDigit {d : Nat} (h : d < 10) : (Nat.digitChar d).isDigit = true := by
  have H : ∀ d : Nat, d < 10 → (Nat.digitChar d).isDigit = true := by decide
  exact H d h

lemma digitVal_digitChar {d : Nat} (h : d < 10) : digitVal (Nat.digitChar d) = d := by
  have H : ∀ d : Nat, d < 10 → digitVal (Nat.digitChar d) = d := by decide
  exact H d h

lemma daysInMonth_le (y m : Nat) : daysInMonth y m ≤ 31 := by
  unfold daysInMonth
  split_ifs <;> simp

lemma resolveTwoDigitYear_cases (yy : Nat) (h : yy ≤ 99) :
    resolveTwoDigitYear yy = if yy ≤ 30 then 2000 + yy else 1900 + yy := by
  simp only [resolveTwoDigitYear]
  split_ifs <;> omega

/-- C5. For every valid two-digit-year date token `DD/MM/YY`, the date
extractor resolves `YY` to `2000+YY` when `YY ∈ [0,30]` and to `1900+YY`
when `YY ∈ [31,99]` (fixed future cutoff 2030), this resolution is
injective over `[0,99]`, and `parse_date_short` applies exactly this
resolution to the year of every token it accepts. -/
theorem claim_C5_century_resolution :
    (∀ yy : Nat, yy ≤ 30 → resolveTwoDigitYear yy = 2000 + yy) ∧
    (∀ yy : Nat, 31 ≤ yy → yy ≤ 99 → resolveTwoDigitYear yy = 1900 + yy) ∧
    (∀ a b : Nat, a ≤ 99 → b ≤ 99 →
      resolveTwoDigitYear a = resolveTwoDigitYear b → a = b) ∧
    (∀ dd mm yy : Nat, 1 ≤ dd → 1 ≤ mm → mm ≤ 12 → yy ≤ 99 →
      dd ≤ daysInMonth (if yy ≤ 68 then 2000 + yy else 1900 + yy) mm →
      parse_date_short (fmt2 dd ++ '/' :: fmt2 mm ++ '/' :: fmt2 yy) =
        some ⟨resolveTwoDigitYear yy, mm, dd⟩) := by
  refine ⟨?_, ?_, ?_, ?_⟩
  · intro yy h
    rw [resolveTwoDigitYear_cases yy (by omega), if_pos h]
  · intro yy h1 h2
    rw [resolveTwoDigitYear_cases yy h2, if_neg (by omega)]
  · intro a b ha hb h
    rw [resolveTwoDigitYear_cases a ha, resolveTwoDigitYear_cases b hb] at h
    split_ifs at h <;> omega
  · intro dd mm yy h1 h2 h3 h4 h5
    have hdd : dd ≤ 99 := le_trans h5 (le_trans (daysInMonth_le _ _) (by omega))
    have d1 : dd / 10 < 10 := by omega
    have d2 : dd % 10 < 10 := by omega
    have d3 : mm / 10 < 10 := by omega
    have d4 : mm % 10 < 10 := by omega
    have d5 : yy / 10 < 10 := by omega
    have d6 : yy % 10 < 10 := by omega
    simp only [fmt2, List.cons_append, List.nil_append, parse_date_short]
    rw [if_pos ⟨trivial, trivial, by
      simp [digitChar_isDigit d1, digitChar_isDigit d2, digitChar_isDigit d3,
        digitChar_isDigit d4, digitChar_isDigit d5, digitChar_isDigit d6]⟩]
    simp only [digitVal_digitChar d1, digitVal_digitChar d2, digitVal_digitChar d3,
      digitVal_digitChar d4, digitVal_digitChar d5, digitVal_digitChar d6]
    have e1 : 10 * (dd / 10) + dd % 10 = dd := by omega
    have e2 : 10 * (mm / 10) + mm % 10 = mm := by omega
    have e3 : 10 * (yy / 10) + yy % 10 = yy := by omega
    rw [e1, e2, e3, if_pos ⟨h2, h3, h1, h5⟩]

/-- Witness for C5: concrete years on each side of the cutoff, injectivity
at a concrete pair, and a concrete leap-day token. -/
theorem claim_C5_century_resolution_witness :
    resolveTwoDigitYear 7 = 2007 ∧ resolveTwoDigitYear 64 = 1964 ∧
    parse_date_short ("29/02/24".toList) = some ⟨2024, 2, 29⟩ := by
  refine ⟨claim_C5_century_resolution.1 7 (by omega),
    claim_C5_century_resolution.2.1 64 (by omega) (by omega), ?_⟩
  exact claim_C5_century_resolution.2.2.2 29 2 24 (by omega) (by omega) (by omega)
    (by omega) (by decide)

/-- Specification-side categorizer (§4.4 of the spec, stated with
`List.find?`): the label of the first-declared table entry one of whose
keywords is a substring of the lowered description, `'Altro'` when no
entry matches. -/
def firstMatchCategory (d : Str) : Str :=
  match categoriesTable.find? (fun e => e.2.any (fun k => containsSub k (pyLower d))) with
  | some e => e.1
  | none => altroLabel

lemma catLoop_eq_find? (low : Str) (table : List (Str × List Str)) :
    catLoop low table =
      match table.find? (fun e => e.2.any (fun k => containsSub k low)) with
      | some e => e.1
      | none => altroLabel := by
  induction table with
  | nil => simp [catLoop]
  | cons e rest ih =>
    obtain ⟨cat, kws⟩ := e
    cases h : kws.any (fun k => containsSub k low) with
    | true => simp [catLoop, List.find?_cons, h]
    | false => simp [catLoop, List.find?_cons, h, ih]

/-- C7. The categorizer lower-cases the description, scans the fixed ordered
category table and returns the label of the first-declared category one of
whose keywords is a substring; when no keyword matches it returns the
default label `'Altro'`: `suggest_category` coincides with the
first-match-wins specification `firstMatchCategory` on every description. -/
theorem claim_C7_categorizer_first_match (d : Str) :
    suggest_category d = firstMatchCategory d := by
  unfold suggest_category firstMatchCategory
  exact catLoop_eq_find? (pyLower d) categoriesTable

/-! ## Money-token computation (claims C4, C2, C10) -/

lemma or_true_cases {x y : Bool} (h : (x || y) = true) : x = true ∨ y = true := by
  cases x
  · cases y
    · cases h
    · exact Or.inr rfl
  · exact Or.inl rfl

lemma ne_of_isDigit_of_not {c x : Char} (h : c.isDigit = true) (hx : x.isDigit = false) :
    c ≠ x := by
  rintro rfl
  rw [h] at hx
  cases hx

lemma isSpaceB_eq_false {c : Char} (h : c.isDigit = true ∨ c = '.' ∨ c = ',') :
    isSpaceB c = false := by
  rcases h with h | rfl | rfl
  · unfold isSpaceB
    simp only [Bool.or_eq_false_iff]
    refine ⟨⟨⟨⟨⟨?_, ?_⟩, ?_⟩, ?_⟩, ?_⟩, ?_⟩ <;>
      · rw [beq_eq_false_iff_ne]
        exact ne_of_isDigit_of_not h (by decide)
  · decide
  · decide

lemma takeWhile_all {p : Char → Bool} : ∀ {s : Str}, (∀ c ∈ s, p c = true) → s.takeWhile p = s
  | [], _ => rfl
  | c :: cs, h => by
    rw [List.takeWhile_cons, if_pos (h c (by simp))]
    rw [takeWhile_all (fun x hx => h x (by simp [hx]))]

lemma takeWhile_append_stop {p : Char → Bool} :
    ∀ {xs : Str}, (∀ c ∈ xs, p c = true) → ∀ {y : Char}, p y = false → ∀ (ys : Str),
      ((xs ++ y :: ys).takeWhile p) = xs
  | [], _, y, hy, ys => by simp [List.takeWhile_cons, hy]
  | x :: rest, h, y, hy, ys => by
    rw [List.cons_append, List.takeWhile_cons, if_pos (h x (by simp))]
    rw [takeWhile_append_stop (fun c hc => h c (by simp [hc])) hy ys]

lemma dropWhile_eq_self_of {p : Char → Bool} {s : Str} (h : ∀ c ∈ s, p c = false) :
    s.dropWhile p = s := by
  cases s with
  | nil => rfl
  | cons c cs => rw [List.dropWhile_cons, if_neg (by rw [h c (by simp)]; exact Bool.false_ne_true)]

lemma pyStrip_eq_self {s : Str} (h : ∀ c ∈ s, isSpaceB c = false) : pyStrip s = s := by
  unfold pyStrip
  rw [dropWhile_eq_self_of h,
    dropWhile_eq_self_of (fun c hc => h c (List.mem_reverse.mp hc)), List.reverse_reverse]

lemma filter_dot_id {s : Str} (h : ∀ c ∈ s, (c == '.') = false) :
    s.filter (fun c => !(c == '.')) = s :=
  List.filter_eq_self.mpr fun c hc => by rw [h c hc]; rfl

lemma map_comma_id {s : Str} (h : ∀ c ∈ s, (c == ',') = false) :
    s.map (fun c => if c == ',' then '.' else c) = s := by
  induction s with
  | nil => rfl
  | cons c cs ih =>
    rw [List.map_cons, if_neg (by rw [h c (by simp)]; exact Bool.false_ne_true)]
    rw [ih fun x hx => h x (by simp [hx])]

lemma pyFloatCore_digits_frac (ip fp : Str) (hip : ∀ c ∈ ip, c.isDigit = true)
    (hfp : ∀ c ∈ fp, c.isDigit = true) (hfpne : fp ≠ []) :
    pyFloatCore (ip ++ '.' :: fp) =
      some ((ofDigits ip : ℚ) + (ofDigits fp : ℚ) / (10 : ℚ) ^ fp.length) := by
  have h1 : (ip ++ '.' :: fp).takeWhile Char.isDigit = ip :=
    takeWhile_append_stop hip (by decide) fp
  simp only [pyFloatCore, h1, List.drop_left]
  rw [if_pos trivial, takeWhile_all hfp, List.drop_length]
  rw [if_neg (by simp), if_neg (by simp [hfpne])]

lemma pyFloat_digits_frac (ip fp : Str) (hip : ∀ c ∈ ip, c.isDigit = true)
    (hfp : ∀ c ∈ fp, c.isDigit = true) (hfpne : fp ≠ []) :
    pyFloat (ip ++ '.' :: fp) =
      some ((ofDigits ip : ℚ) + (ofDigits fp : ℚ) / (10 : ℚ) ^ fp.length) := by
  cases ip with
  | nil =>
    rw [List.nil_append, pyFloat]
    rw [if_neg (by decide), if_neg (by decide)]
    exact pyFloatCore_digits_frac [] fp hip hfp hfpne
  | cons c ip' =>
    rw [List.cons_append, pyFloat]
    have hc := hip c (by simp)
    rw [if_neg (ne_of_isDigit_of_not hc (by decide)),
      if_neg (ne_of_isDigit_of_not hc (by decide))]
    exact pyFloatCore_digits_frac (c :: ip') fp hip hfp hfpne

lemma pyTransform_token (run : Str) (a b : Char) (hrun : ∀ c ∈ run, isDigitDot c = true)
    (ha : a.isDigit = true) (hb : b.isDigit = true) :
    pyTransform (run ++ ',' :: [a, b]) =
      (run.filter (fun c => !(c == '.'))) ++ '.' :: [a, b] := by
  have hdotcomma : ∀ c ∈ run, c.isDigit = true ∨ c = '.' := by
    intro c hc
    rcases or_true_cases (hrun c hc) with h | h
    · exact Or.inl h
    · exact Or.inr (beq_iff_eq.mp h)
  have hclass : ∀ c ∈ run ++ ',' :: [a, b], c.isDigit = true ∨ c = '.' ∨ c = ',' := by
    intro c hc
    rcases List.mem_append.mp hc with h | h
    · rcases hdotcomma c h with h' | h'
      · exact Or.inl h'
      · exact Or.inr (Or.inl h')
    · rcases List.mem_cons.mp h with rfl | h
      · exact Or.inr (Or.inr rfl)
      · rcases List.mem_cons.mp h with rfl | h
        · exact Or.inl ha
        · rcases List.mem_cons.mp h with rfl | h
          · exact Or.inl hb
          · cases h
  have hnospace : ∀ c ∈ run ++ ',' :: [a, b], isSpaceB c = false :=
    fun c hc => isSpaceB_eq_false (hclass c hc)
  have hnoeuro : ∀ c ∈ run ++ ',' :: [a, b], (!(c == '€')) = true := by
    intro c hc
    rcases hclass c hc with h | rfl | rfl
    · rw [beq_eq_false_iff_ne.mpr (ne_of_isDigit_of_not h (by decide))]; rfl
    · decide
    · decide
  have hrunNoComma : ∀ c ∈ run.filter (fun c => !(c == '.')), (c == ',') = false := by
    intro c hc
    rcases hdotcomma c (List.mem_of_mem_filter hc) with h | h
    · exact beq_eq_false_iff_ne.mpr (ne_of_isDigit_of_not h (by decide))
    · exact absurd (List.of_mem_filter hc) (by rw [h]; decide)
  have habNoDot : ∀ c ∈ (',' :: [a, b] : Str), (c == '.') = false := by
    intro c hc
    rcases List.mem_cons.mp hc with rfl | h
    · decide
    · rcases List.mem_cons.mp h with rfl | h
      · exact beq_eq_false_iff_ne.mpr (ne_of_isDigit_of_not ha (by decide))
      · rcases List.mem_cons.mp h with rfl | h
        · exact beq_eq_false_iff_ne.mpr (ne_of_isDigit_of_not hb (by decide))
        · cases h
  have habNoComma : ∀ c ∈ ([a, b] : Str), (c == ',') = false := by
    intro c hc
    rcases List.mem_cons.mp hc with rfl | h
    · exact beq_eq_false_iff_ne.mpr (ne_of_isDigit_of_not ha (by decide))
    · rcases List.mem_cons.mp h with rfl | h
      · exact beq_eq_false_iff_ne.mpr (ne_of_isDigit_of_not hb (by decide))
      · cases h
  simp only [pyTransform]
  rw [pyStrip_eq_self hnospace, List.filter_eq_self.mpr hnoeuro, pyStrip_eq_self hnospace]
  rw [List.filter_append, filter_dot_id habNoDot, List.map_append, map_comma_id hrunNoComma]
  rw [List.map_cons, map_comma_id habNoComma]
  rfl

/-- Evaluation of `parse_amount` on any string of the money-token shape
`([\d.]+,\d{2})`: the digits of the integer part (thousands dots removed)
followed by the two decimals. -/
lemma parse_amount_token (run : Str) (a b : Char) (hrun : ∀ c ∈ run, isDigitDot c = true)
    (hrne : run ≠ []) (ha : a.isDigit = true) (hb : b.isDigit = true) :
    parse_amount (run ++ ',' :: [a, b]) =
      (ofDigits (run.filter (fun c => !(c == '.'))) : ℚ) + (ofDigits [a, b] : ℚ) / 100 := by
  have hclass : ∀ c ∈ run ++ ',' :: [a, b], c.isDigit = true ∨ c = '.' ∨ c = ',' := by
    intro c hc
    rcases List.mem_append.mp hc with h | h
    · rcases or_true_cases (hrun c h) with h' | h'
      · exact Or.inl h'
      · exact Or.inr (Or.inl (beq_iff_eq.mp h'))
    · rcases List.mem_cons.mp h with rfl | h
      · exact Or.inr (Or.inr rfl)
      · rcases List.mem_cons.mp h with rfl | h
        · exact Or.inl ha
        · rcases List.mem_cons.mp h with rfl | h
          · exact Or.inl hb
          · cases h
  have hnospace : ∀ c ∈ run ++ ',' :: [a, b], isSpaceB c = false :=
    fun c hc => isSpaceB_eq_false (hclass c hc)
  have hfdig : ∀ c ∈ run.filter (fun c => !(c == '.')), c.isDigit = true := by
    intro c hc
    rcases or_true_cases (hrun c (List.mem_of_mem_filter hc)) with h | h
    · exact h
    · exact absurd (List.of_mem_filter hc) (by rw [beq_iff_eq.mp h]; decide)
  unfold parse_amount
  rw [pyStrip_eq_self hnospace, if_neg (by cases run with | nil => exact absurd rfl hrne | cons x xs => simp)]
  rw [pyTransform_token run a b hrun ha hb]
  rw [pyFloat_digits_frac _ [a, b] hfdig
    (by intro c hc
        rcases List.mem_cons.mp hc with rfl | h
        · exact ha
        · rcases List.mem_cons.mp h with rfl | h
          · exact hb
          · cases h)
    (by simp)]
  norm_num

/-- Money token of the spec's form `D{1,3}(.DDD)*,DD`: integer head, dotted
thousands groups, comma, two decimals. -/
def moneyToken (d1 : Str) (groups : List Str) (dd : Str) : Str :=
  d1 ++ (groups.map (fun g => '.' :: g)).flatten ++ ',' :: dd

lemma filter_dot_flatten (groups : List Str) (hg : ∀ g ∈ groups, ∀ c ∈ g, c.isDigit = true) :
    ((groups.map (fun g => '.' :: g)).flatten).filter (fun c => !(c == '.')) = groups.flatten := by
  induction groups with
  | nil => rfl
  | cons g gs ih =>
    rw [List.map_cons, List.flatten_cons, List.filter_append, List.filter_cons,
      if_neg (by decide)]
    rw [filter_dot_id (fun c hc =>
      beq_eq_false_iff_ne.mpr (ne_of_isDigit_of_not (hg g (by simp) c hc) (by decide)))]
    rw [ih (fun g' hg' c hc => hg g' (by simp [hg']) c hc), List.flatten_cons]

/-- C4. For every money token of the form `D{1,3}(.DDD)*,DD`, the monetary
field extractor strips currency symbol and whitespace, removes every `'.'`,
replaces `','` by `'.'` and reads the result as a decimal number (so
`parse_amount "1.234,56" = 1234.56`); and every token whose transformed
form fails decimal parsing yields `0.0` instead of an error. -/
theorem claim_C4_parse_amount :
    (∀ (d1 : Str) (groups : List Str) (dd : Str),
      (∀ c ∈ d1, c.isDigit = true) → 1 ≤ d1.length → d1.length ≤ 3 →
      (∀ g ∈ groups, g.length = 3 ∧ ∀ c ∈ g, c.isDigit = true) →
      (∀ c ∈ dd, c.isDigit = true) → dd.length = 2 →
      parse_amount (moneyToken d1 groups dd) =
        (ofDigits (d1 ++ groups.flatten) : ℚ) + (ofDigits dd : ℚ) / 100) ∧
    (∀ s : Str, pyFloat (pyTransform s) = none → parse_amount s = 0) := by
  constructor
  · intro d1 groups dd hd1 hlen1 _ hg hdd hddlen
    obtain ⟨a, b, rfl⟩ : ∃ a b : Char, dd = [a, b] := by
      cases dd with
      | nil => simp at hddlen
      | cons a t =>
        cases t with
        | nil => simp at hddlen
        | cons b t2 =>
          cases t2 with
          | nil => exact ⟨a, b, rfl⟩
          | cons x t3 => simp at hddlen
    have ha : a.isDigit = true := hdd a (by simp)
    have hb : b.isDigit = true := hdd b (by simp)
    have hrun : ∀ c ∈ d1 ++ (groups.map (fun g => '.' :: g)).flatten, isDigitDot c = true := by
      intro c hc
      rcases List.mem_append.mp hc with h | h
      · unfold isDigitDot; rw [hd1 c h]; rfl
      · obtain ⟨l, hl, hcl⟩ := List.mem_flatten.mp h
        obtain ⟨g, hgmem, rfl⟩ := List.mem_map.mp hl
        rcases List.mem_cons.mp hcl with rfl | hcg
        · decide
        · unfold isDigitDot; rw [(hg g hgmem).2 c hcg]; rfl
    have hrne : d1 ++ (groups.map (fun g => '.' :: g)).flatten ≠ [] := by
      cases d1 with
      | nil => simp at hlen1
      | cons x xs => simp
    unfold moneyToken
    rw [parse_amount_token (d1 ++ (groups.map (fun g => '.' :: g)).flatten) a b hrun hrne ha hb]
    rw [List.filter_append,
      filter_dot_id (fun c hc =>
        beq_eq_false_iff_ne.mpr (ne_of_isDigit_of_not (hd1 c hc) (by decide))),
      filter_dot_flatten groups (fun g hgm => (hg g hgm).2)]
  · intro s h
    unfold parse_amount
    split_ifs with hs
    · rfl
    · rw [h]; rfl

/-- Witness for C4: the spec's own example token, and a malformed token
(two commas) that falls back to `0.0`. -/
theorem claim_C4_parse_amount_witness :
    parse_amount ("1.234,56".toList) = 1234.56 ∧ parse_amount ("1,2,34".toList) = 0 := by
  constructor
  · have h := claim_C4_parse_amount.1 ['1'] [['2', '3', '4']] ['5', '6']
      (by decide) (by decide) (by decide) (by decide) (by decide) rfl
    rw [show ("1.234,56".toList : Str) = moneyToken ['1'] [['2', '3', '4']] ['5', '6'] from rfl, h]
    have e1 : ofDigits (['1'] ++ ([['2', '3', '4']] : List Str).flatten) = 1234 := by decide
    have e2 : ofDigits ['5', '6'] = 56 := by decide
    rw [e1, e2]
    norm_num
  · exact claim_C4_parse_amount.2 _ (by decide)

lemma pta_uscita (line : Str) :
    (parse_transaction_amounts line).uscita = (uePair line).1 := rfl

lemma pta_entrata (line : Str) :
    (parse_transaction_amounts line).entrata = (uePair line).2 := rfl

lemma pta_netto (line : Str) :
    (parse_transaction_amounts line).importo_netto =
      (if optTruthy (uePair line).2 then ((uePair line).2).getD 0
       else if optTruthy (uePair line).1 then -(((uePair line).1).getD 0)
       else 0) := rfl

/-- C10. The net-amount selection tests the parsed inflow value for being
non-zero, not for being present: with both amounts extracted and the
inflow parsed as `0.0` the net is minus the outflow, and with only an
inflow extracted that parses to `0.0` the net is `0` and the movement type
comes out `'USCITA'`. -/
theorem claim_C10_zero_inflow_netting (line : Str)
    (he : (parse_transaction_amounts line).entrata = some 0) :
    (∀ u : ℚ, (parse_transaction_amounts line).uscita = some u →
      (parse_transaction_amounts line).importo_netto = -u) ∧
    ((parse_transaction_amounts line).uscita = none →
      (parse_transaction_amounts line).importo_netto = 0 ∧
      tipoOf (parse_transaction_amounts line).importo_netto = "USCITA".toList) := by
  rw [pta_entrata] at he
  constructor
  · intro u hu
    rw [pta_uscita] at hu
    rw [pta_netto, he, hu]
    by_cases hu0 : u = 0
    · simp [optTruthy, hu0]
    · simp [optTruthy, hu0]
  · intro hno
    rw [pta_uscita] at hno
    rw [pta_netto, he, hno]
    refine ⟨by simp [optTruthy], ?_⟩
    simp [optTruthy, tipoOf]

/-- Witness for C10: a two-token line whose inflow token is `00,00`
(net `-10`), and an inflow-only zero token far to the right (net `0`,
type `'USCITA'`). -/
theorem claim_C10_zero_inflow_netting_witness :
    (parse_transaction_amounts ("AB 10,00 00,00".toList)).importo_netto = -10 ∧
    (parse_transaction_amounts (List.replicate 21 'A' ++ " 00,00".toList)).importo_netto = 0 ∧
    tipoOf (parse_transaction_amounts (List.replicate 21 'A' ++ " 00,00".toList)).importo_netto =
      "USCITA".toList := by
  have h1 := (claim_C10_zero_inflow_netting ("AB 10,00 00,00".toList) (by decide)).1
    10 (by decide)
  have h2 := (claim_C10_zero_inflow_netting (List.replicate 21 'A' ++ " 00,00".toList)
    (by decide)).2 (by decide)
  exact ⟨h1, h2.1, h2.2⟩

/-- Transaction-start line remainder whose first money token sits past the
column-threshold offset 20. -/
def farLine : Str := List.replicate 21 'A' ++ " 10,00 20,00".toList

/-- C1 counterexample: a line with exactly two extracted money tokens whose
first token starts past offset 20; the code classifies the first token as
the INFLOW (`entrata = 10`) and produces no outflow at all, against the
claim that the first token is always the outflow. -/
theorem claim_C1_counterexample :
    findAmounts farLine = ["10,00".toList, "20,00".toList] ∧
    (parse_transaction_amounts farLine).uscita = none ∧
    (parse_transaction_amounts farLine).entrata = some 10 := by decide

/-- C1 (amended). For a transaction-start line with exactly two money
tokens, the first is the outflow and the second the inflow precisely when
the first token's `find` offset is `≤ 20`; when that offset exceeds 20 the
first token is classified as the inflow and the second token is ignored. -/
theorem claim_C1_two_token_disambiguation (line : Str) (a b : Str)
    (h : findAmounts line = [a, b]) :
    (pyFind line a ≤ 20 →
      (parse_transaction_amounts line).uscita = some (parse_amount a) ∧
      (parse_transaction_amounts line).entrata = some (parse_amount b)) ∧
    (20 < pyFind line a →
      (parse_transaction_amounts line).uscita = none ∧
      (parse_transaction_amounts line).entrata = some (parse_amount a)) := by
  constructor
  · intro hle
    rw [pta_uscita, pta_entrata]
    unfold uePair
    rw [h]
    dsimp only
    rw [if_neg (not_lt.mpr hle)]
    exact ⟨rfl, rfl⟩
  · intro hlt
    rw [pta_uscita, pta_entrata]
    unfold uePair
    rw [h]
    dsimp only
    rw [if_pos hlt]
    exact ⟨rfl, rfl⟩

/-- Witness for C1 (amended): both branches at concrete lines. -/
theorem claim_C1_two_token_disambiguation_witness :
    (parse_transaction_amounts ("AB 10,00 20,00".toList)).uscita = some 10 ∧
    (parse_transaction_amounts ("AB 10,00 20,00".toList)).entrata = some 20 ∧
    (parse_transaction_amounts farLine).entrata = some 10 ∧
    (parse_transaction_amounts farLine).uscita = none := by
  have h1 := (claim_C1_two_token_disambiguation ("AB 10,00 20,00".toList)
    ("10,00".toList) ("20,00".toList) (by decide)).1 (by decide)
  have h2 := (claim_C1_two_token_disambiguation farLine
    ("10,00".toList) ("20,00".toList) (by decide)).2 (by decide)
  have e1 : parse_amount ("10,00".toList) = 10 := by decide
  have e2 : parse_amount ("20,00".toList) = 20 := by decide
  exact ⟨by rw [h1.1, e1], by rw [h1.2, e2], by rw [h2.2, e1], h2.1⟩

/-- Shape of every match of the money-token pattern: a nonempty `[\d.]` run,
a comma, two digits. -/
lemma matchMoney_shape {s tok rest : Str} (h : matchMoney s = some (tok, rest)) :
    ∃ run a b, tok = run ++ ',' :: [a, b] ∧ run ≠ [] ∧ (∀ c ∈ run, isDigitDot c = true) ∧
      a.isDigit = true ∧ b.isDigit = true := by
  simp only [matchMoney] at h
  split_ifs at h with h1
  rcases hdrop : s.drop (s.takeWhile isDigitDot).length with _ | ⟨c, _ | ⟨d1, _ | ⟨d2, rest'⟩⟩⟩
  · rw [hdrop] at h; simp at h
  · rw [hdrop] at h; simp at h
  · rw [hdrop] at h; simp at h
  · rw [hdrop] at h
    dsimp only at h
    split_ifs at h with hc
    · have hp : (s.takeWhile isDigitDot ++ [c, d1, d2], rest') = (tok, rest) :=
        Option.some.inj h
      have htok : s.takeWhile isDigitDot ++ [c, d1, d2] = tok := congrArg Prod.fst hp
      obtain ⟨rfl, hd1, hd2⟩ := hc
      refine ⟨s.takeWhile isDigitDot, d1, d2, htok.symm, ?_, ?_, hd1, hd2⟩
      · intro he
        rw [he] at h1
        exact h1 rfl
      · intro x hx
        exact List.mem_takeWhile_imp hx

/-- Every token the scanner emits has the money-token shape. -/
lemma findAmountsAux_shape : ∀ (fuel : Nat) (s tok : Str), tok ∈ findAmountsAux fuel s →
    ∃ run a b, tok = run ++ ',' :: [a, b] ∧ run ≠ [] ∧ (∀ c ∈ run, isDigitDot c = true) ∧
      a.isDigit = true ∧ b.isDigit = true := by
  intro fuel
  induction fuel with
  | zero => intro s tok h; simp [findAmountsAux] at h
  | succ n ih =>
    intro s tok h
    cases s with
    | nil => simp [findAmountsAux] at h
    | cons c cs =>
      rw [findAmountsAux] at h
      revert h
      cases hm : matchMoney (c :: cs) with
      | none => exact fun h => ih cs tok h
      | some pr =>
        obtain ⟨tok0, rest⟩ := pr
        intro h
        rcases List.mem_cons.mp h with rfl | h
        · exact matchMoney_shape hm
        · exact ih rest tok h

lemma findAmounts_shape {s tok : Str} (h : tok ∈ findAmounts s) :
    ∃ run a b, tok = run ++ ',' :: [a, b] ∧ run ≠ [] ∧ (∀ c ∈ run, isDigitDot c = true) ∧
      a.isDigit = true ∧ b.isDigit = true :=
  findAmountsAux_shape s.length s tok h

/-- Every scanned money token parses to a nonnegative amount. -/
lemma parse_amount_nonneg {s tok : Str} (h : tok ∈ findAmounts s) : 0 ≤ parse_amount tok := by
  obtain ⟨run, a, b, rfl, hrne, hrun, ha, hb⟩ := findAmounts_shape h
  rw [parse_amount_token run a b hrun hrne ha hb]
  positivity

/-- Amount invariant of the reconstructor's per-line amount parse: both
fields absent forces net `0`, and any present field is nonnegative. -/
lemma pta_invariant (line : Str) :
    ((parse_transaction_amounts line).uscita = none ∧
      (parse_transaction_amounts line).entrata = none →
      (parse_transaction_amounts line).importo_netto = 0) ∧
    (∀ u, (parse_transaction_amounts line).uscita = some u → 0 ≤ u) ∧
    (∀ e, (parse_transaction_amounts line).entrata = some e → 0 ≤ e) := by
  cases hA : findAmounts line with
  | nil =>
    have hue : uePair line = (none, none) := by unfold uePair; rw [hA]
    rw [pta_uscita, pta_entrata, pta_netto, hue]
    refine ⟨fun _ => by simp [optTruthy], fun u hu => ?_, fun e he => ?_⟩
    · simp at hu
    · simp at he
  | cons a rest =>
    have hnna : 0 ≤ parse_amount a := parse_amount_nonneg (by rw [hA]; simp)
    by_cases hpos : 20 < pyFind line a
    · have hue : uePair line = (none, some (parse_amount a)) := by
        unfold uePair; rw [hA]; dsimp only; rw [if_pos hpos]
      rw [pta_uscita, pta_entrata, pta_netto, hue]
      refine ⟨fun hcon => ?_, fun u hu => ?_, fun e he => ?_⟩
      · exact absurd hcon.2 (by simp)
      · simp at hu
      · rw [← Option.some.inj (by simpa using he : some (parse_amount a) = some e)]
        exact hnna
    · cases rest with
      | nil =>
        have hue : uePair line = (some (parse_amount a), none) := by
          unfold uePair; rw [hA]; dsimp only; rw [if_neg hpos]
        rw [pta_uscita, pta_entrata, pta_netto, hue]
        refine ⟨fun hcon => ?_, fun u hu => ?_, fun e he => ?_⟩
        · exact absurd hcon.1 (by simp)
        · rw [← Option.some.inj (by simpa using hu : some (parse_amount a) = some u)]
          exact hnna
        · simp at he
      | cons b rest2 =>
        have hnnb : 0 ≤ parse_amount b := parse_amount_nonneg (by rw [hA]; simp)
        have hue : uePair line = (some (parse_amount a), some (parse_amount b)) := by
          unfold uePair; rw [hA]; dsimp only; rw [if_neg hpos]
        rw [pta_uscita, pta_entrata, pta_netto, hue]
        refine ⟨fun hcon => ?_, fun u hu => ?_, fun e he => ?_⟩
        · exact absurd hcon.1 (by simp)
        · rw [← Option.some.inj (by simpa using hu : some (parse_amount a) = some u)]
          exact hnna
        · rw [← Option.some.inj (by simpa using he : some (parse_amount b) = some e)]
          exact hnnb

/-- Amount invariant actually maintained by the reconstructor's records:
absent-absent forces net `0`, present amounts are nonnegative. -/
def amountInv (t : Trans) : Prop :=
  (t.importo_uscita = none ∧ t.importo_entrata = none → t.importo = 0) ∧
  (∀ u, t.importo_uscita = some u → 0 ≤ u) ∧
  (∀ e, t.importo_entrata = some e → 0 ≤ e)

lemma processLines_inv (pn : Nat) : ∀ (lines : List Str) (cur : Option Trans),
    (∀ t, cur = some t → amountInv t) →
    ∀ t ∈ processLines pn lines cur, amountInv t := by
  intro lines
  induction lines with
  | nil =>
    intro cur hcur t ht
    rw [processLines] at ht
    cases cur with
    | none => simp at ht
    | some t0 =>
      simp only [Option.toList, List.mem_singleton] at ht
      rw [ht]
      exact hcur t0 rfl
  | cons l ls ih =>
    intro cur hcur t ht
    simp only [processLines] at ht
    by_cases hblank : pyStrip l = ([] : Str)
    · rw [if_pos hblank] at ht
      exact ih cur hcur t ht
    · rw [if_neg hblank] at ht
      by_cases hsaldo : saldoRow (pyStrip l) = true
      · rw [if_pos hsaldo] at ht
        exact ih cur hcur t ht
      · rw [if_neg hsaldo] at ht
        cases hts : transStart (pyStrip l) with
        | some trip =>
          obtain ⟨d1, d2, resto⟩ := trip
          rw [hts] at ht
          dsimp only at ht
          rcases List.mem_append.mp ht with hmem | hmem
          · cases cur with
            | none => simp at hmem
            | some t0 =>
              simp only [Option.toList, List.mem_singleton] at hmem
              rw [hmem]
              exact hcur t0 rfl
          · refine ih _ ?_ t hmem
            intro t' h'
            cases Option.some.inj h'
            unfold amountInv
            exact ⟨(pta_invariant resto).1, (pta_invariant resto).2.1, (pta_invariant resto).2.2⟩
        | none =>
          rw [hts] at ht
          dsimp only at ht
          cases cur with
          | none => exact ih none (fun t' h' => by cases h') t ht
          | some t0 =>
            refine ih _ ?_ t ht
            intro t' h'
            cases Option.some.inj h'
            have h0 := hcur t0 rfl
            unfold amountInv at h0 ⊢
            exact h0

/-- C2 (amended). Every record materialized by the page extractor satisfies:
if both the inflow and the outflow field are absent then the net amount is
`0`, and every present amount is nonnegative — but both fields can be
non-null simultaneously (two-token lines whose first token sits at offset
`≤ 20`), which is the one correction to the claimed exactly-one invariant;
and any line matching the balance-row (`SALDO`) pattern is skipped by the
reconstructor and never becomes a record. -/
theorem claim_C2_record_invariant :
    (∀ (pageText : Str) (pageNum : Nat), ∀ t ∈ extract_transactions_from_page pageText pageNum,
      (t.importo_uscita = none ∧ t.importo_entrata = none → t.importo = 0) ∧
      (∀ u, t.importo_uscita = some u → 0 ≤ u) ∧
      (∀ e, t.importo_entrata = some e → 0 ≤ e)) ∧
    (∀ (pageNum : Nat) (l : Str) (ls : List Str) (cur : Option Trans),
      saldoRow (pyStrip l) = true →
      processLines pageNum (l :: ls) cur = processLines pageNum ls cur) := by
  constructor
  · intro pageText pageNum t ht
    simp only [extract_transactions_from_page] at ht
    cases hh : findHeaderStart (splitLines pageText) with
    | none => rw [hh] at ht; simp at ht
    | some start =>
      rw [hh] at ht
      dsimp only at ht
      rcases List.mem_map.mp ht with ⟨t0, ht0, rfl⟩
      have h0 := processLines_inv pageNum _ none (fun t' h' => by cases h') t0 ht0
      unfold amountInv at h0
      exact h0
  · intro pageNum l ls cur hs
    have hne : pyStrip l ≠ ([] : Str) := by
      intro he
      rw [he] at hs
      cases hs
    simp only [processLines]
    rw [if_neg hne, if_pos hs]

/-- Page whose single transaction line carries two money tokens at offset
`≤ 20`: both amount fields come out non-null. -/
def pageC2 : Str := ("DATA VALUTA USCITE ENTRATE DESCRIZIONE\n01/01/24 02/01/24 AB 10,00 20,00").toList

/-- C2 counterexample: the page extractor materializes a record whose
outflow and inflow are BOTH non-null (`10` and `20`), refuting the claimed
invariant that exactly one of the two is non-null. -/
theorem claim_C2_counterexample :
    (extract_transactions_from_page pageC2 1).map
        (fun t => (t.importo_uscita, t.importo_entrata)) =
      [(some 10, some 20)] := by decide

/-- The record `pageC2`'s extraction produces. -/
def recC2 : Trans :=
  { data_transazione := some ⟨2024, 1, 1⟩
    data_valuta := some ⟨2024, 1, 2⟩
    importo_uscita := some 10
    importo_entrata := some 20
    importo := 20
    descrizione := "AB".toList
    tipo_movimento := "ENTRATA".toList
    pagina := 1
    categoria_suggerita := "Altro".toList
    numero_progressivo := 0 }

/-- Witness for C2 (amended): the invariant applied to the concrete record
of `pageC2`, and the balance-row skip applied to a concrete `SALDO` line. -/
theorem claim_C2_record_invariant_witness :
    (0 : ℚ) ≤ 10 ∧
    processLines 1 ["01/01/24 1,00 SALDO".toList] none = processLines 1 [] none := by
  constructor
  · exact (claim_C2_record_invariant.1 pageC2 1 recC2 (by decide)).2.1 10 (by decide)
  · exact claim_C2_record_invariant.2 1 ("01/01/24 1,00 SALDO".toList) [] none (by decide)

/-- Page whose first transaction line has a date token that matches the
`\d{2}/\d{2}/\d{2}` pattern but fails date parsing (day 40, month 40),
next to a second line whose date parses. -/
def pageC3 : Str :=
  ("DATA VALUTA USCITE ENTRATE DESCRIZIONE\n40/40/24 01/03/24 AB 5,00\n01/03/24 01/03/24 CD 6,00").toList

/-- C3 (code bug). The unparseable date does become `None` at record level,
exactly as claimed — but the document-level sort then compares that `None`
key with the other record's date, which in CPython raises `TypeError`, so
the whole-document parse raises instead of returning a document. -/
theorem claim_C3_bad_date_aborts_parse :
    (extract_transactions_from_page pageC3 1).map (fun t => t.data_transazione) =
      [none, some ⟨2024, 3, 1⟩] ∧
    extract_all_transactions [pageC3] = Except.error () := by
  refine ⟨by decide, ?_⟩
  rfl

/-! ## Stable sort machinery (claim C6) -/

lemma dateLT_irrefl (x : Date) : ¬ dateLT x x := by
  unfold dateLT
  omega

lemma dateLT_asymm {x y : Date} (h : dateLT x y) : ¬ dateLT y x := by
  unfold dateLT at *
  omega

lemma dateLT_trans_neg {a b c : Date} (h1 : ¬ dateLT b a) (h2 : ¬ dateLT c b) :
    ¬ dateLT c a := by
  unfold dateLT at *
  omega

lemma insertByDate_perm (t : Trans) (us : List Trans) :
    (insertByDate t us).Perm (t :: us) := by
  induction us with
  | nil => exact List.Perm.refl _
  | cons u us ih =>
    rw [insertByDate]
    split_ifs with hlt
    · exact (ih.cons u).trans (List.Perm.swap t u us)
    · exact List.Perm.refl _

lemma mem_insertByDate {t x : Trans} {us : List Trans} (h : x ∈ insertByDate t us) :
    x = t ∨ x ∈ us := by
  have hx := (insertByDate_perm t us).mem_iff.mp h
  exact List.mem_cons.mp hx

lemma insertByDate_pairwise {t : Trans} {us : List Trans}
    (h : List.Pairwise (fun a b => ¬ dateLT (dateKey b) (dateKey a)) us) :
    List.Pairwise (fun a b => ¬ dateLT (dateKey b) (dateKey a)) (insertByDate t us) := by
  induction us with
  | nil => simp [insertByDate]
  | cons u us ih =>
    rw [insertByDate]
    rcases List.pairwise_cons.mp h with ⟨hu, hus⟩
    split_ifs with hlt
    · refine List.pairwise_cons.mpr ⟨?_, ih hus⟩
      intro x hx
      rcases mem_insertByDate hx with rfl | hx'
      · exact dateLT_asymm hlt
      · exact hu x hx'
    · refine List.pairwise_cons.mpr ⟨?_, h⟩
      intro x hx
      rcases List.mem_cons.mp hx with rfl | hx'
      · exact hlt
      · exact dateLT_trans_neg hlt (hu x hx')

lemma sortByDate_pairwise (l : List Trans) :
    List.Pairwise (fun a b => ¬ dateLT (dateKey b) (dateKey a)) (sortByDate l) := by
  induction l with
  | nil => simp [sortByDate]
  | cons t ts ih => exact insertByDate_pairwise ih

lemma sortByDate_perm (l : List Trans) : (sortByDate l).Perm l := by
  induction l with
  | nil => exact List.Perm.refl _
  | cons t ts ih => exact (insertByDate_perm t (sortByDate ts)).trans (ih.cons t)

lemma filter_insertByDate (t : Trans) (us : List Trans) (d : Date) :
    (insertByDate t us).filter (fun x => decide (dateKey x = d)) =
      (t :: us).filter (fun x => decide (dateKey x = d)) := by
  induction us with
  | nil => rfl
  | cons u us ih =>
    rw [insertByDate]
    split_ifs with hlt
    · by_cases hu : dateKey u = d
      · have ht : dateKey t ≠ d := by
          intro he
          rw [hu, he] at hlt
          exact dateLT_irrefl d hlt
        simp [List.filter_cons, hu, ht, ih]
      · simp [List.filter_cons, hu, ih]
    · rfl

lemma sortByDate_filter (l : List Trans) (d : Date) :
    (sortByDate l).filter (fun x => decide (dateKey x = d)) =
      l.filter (fun x => decide (dateKey x = d)) := by
  induction l with
  | nil => rfl
  | cons t ts ih =>
    rw [sortByDate, filter_insertByDate, List.filter_cons, List.filter_cons, ih]

lemma numberFrom_getElem? : ∀ (l : List Trans) (n i : Nat),
    (numberFrom n l)[i]? = (l[i]?).map (fun t => { t with numero_progressivo := n + i }) := by
  intro l
  induction l with
  | nil => intro n i; simp [numberFrom]
  | cons t ts ih =>
    intro n i
    cases i with
    | zero => simp [numberFrom]
    | succ j =>
      simp only [numberFrom, List.getElem?_cons_succ, ih (n + 1) j,
        show n + 1 + j = n + (j + 1) from by omega]

/-- C6 (amended). For every multi-page input all of whose records carry a
parseable transaction date, the Document Assembler concatenates the
per-page record lists in page order (`allRecords`), stably sorts that
concatenation by transaction date ascending (sorted output, equal-date
records keep input order — formalized as filter-stability at every date —
and the output is a permutation of the input, so nothing is reordered by
any other value), then assigns sequence numbers `1..N` in sorted order.
The parseable-date hypothesis is forced by the counterexample: with an
unparseable date among two or more records the sort raises instead. -/
theorem claim_C6_assembler_order (pages : List Str)
    (h : ∀ t ∈ allRecords pages, (t.data_transazione).isSome = true) :
    extract_all_transactions pages =
      Except.ok (numberTrans (sortByDate (allRecords pages))) ∧
    List.Pairwise (fun a b => ¬ dateLT (dateKey b) (dateKey a)) (sortByDate (allRecords pages)) ∧
    (∀ d : Date, (sortByDate (allRecords pages)).filter (fun x => decide (dateKey x = d)) =
      (allRecords pages).filter (fun x => decide (dateKey x = d))) ∧
    (sortByDate (allRecords pages)).Perm (allRecords pages) ∧
    (∀ i : Nat, (numberTrans (sortByDate (allRecords pages)))[i]? =
      ((sortByDate (allRecords pages))[i]?).map
        (fun t => { t with numero_progressivo := i + 1 })) := by
  refine ⟨?_, sortByDate_pairwise _, fun d => sortByDate_filter _ d, sortByDate_perm _, ?_⟩
  · unfold extract_all_transactions
    rw [if_neg]
    rintro ⟨-, hany⟩
    rcases List.any_eq_true.mp hany with ⟨t, ht, hnone⟩
    have hsome := h t ht
    cases hdt : t.data_transazione with
    | none => rw [hdt] at hsome; cases hsome
    | some d => rw [hdt] at hnone; cases hnone
  · intro i
    unfold numberTrans
    rw [numberFrom_getElem?]
    simp [Nat.add_comm]

/-- Two-page input, dates out of order across pages, all parseable. -/
def pagesC6 : List Str :=
  [("DATA VALUTA USCITE ENTRATE DESCRIZIONE\n02/03/24 02/03/24 AB 5,00").toList,
   ("DATA VALUTA USCITE ENTRATE DESCRIZIONE\n01/03/24 01/03/24 CD 6,00").toList]

/-- Witness for C6 (amended): the assembler equation at a concrete two-page
input with parseable dates. -/
theorem claim_C6_assembler_order_witness :
    extract_all_transactions pagesC6 =
      Except.ok (numberTrans (sortByDate (allRecords pagesC6))) :=
  (claim_C6_assembler_order pagesC6 (by decide)).1

/-- Two-page input whose first page carries an unparseable transaction date. -/
def pagesC6bad : List Str :=
  [("DATA VALUTA USCITE ENTRATE DESCRIZIONE\n40/40/24 01/03/24 AB 5,00").toList,
   ("DATA VALUTA USCITE ENTRATE DESCRIZIONE\n01/03/24 01/03/24 CD 6,00").toList]

/-- C6 counterexample: on this multi-page input the assembler does not
produce the sorted, numbered document the claim promises for every
multi-page input — the date sort raises (`TypeError` comparing `None`)
and the parse fails. -/
theorem claim_C6_counterexample :
    extract_all_transactions pagesC6bad = Except.error () := by rfl

/-! ## Statistics (claims C8, C9) -/

/-- Sum of the per-category record counts. -/
def catNumeroSum (cats : List (Str × CatStat)) : Nat := (cats.map (fun c => c.2.numero)).sum

/-- Sum of the per-category signed totals. -/
def catTotaleSum (cats : List (Str × CatStat)) : ℚ := (cats.map (fun c => c.2.totale)).sum

/-- Sum of all records' net amounts. -/
def importoSum (ts : List Trans) : ℚ := (ts.map (fun t => t.importo)).sum

lemma upsertCat_numero (cat : Str) (imp : ℚ) (num : Nat) (cats : List (Str × CatStat)) :
    catNumeroSum (upsertCat cat imp num cats) = catNumeroSum cats + 1 := by
  induction cats with
  | nil => simp [upsertCat, catNumeroSum]
  | cons p rest ih =>
    obtain ⟨c, st⟩ := p
    rw [upsertCat]
    split_ifs with hc
    · simp [catNumeroSum]
      omega
    · simp only [catNumeroSum, List.map_cons, List.sum_cons] at ih ⊢
      omega

lemma upsertCat_totale (cat : Str) (imp : ℚ) (num : Nat) (cats : List (Str × CatStat)) :
    catTotaleSum (upsertCat cat imp num cats) = catTotaleSum cats + imp := by
  induction cats with
  | nil => simp [upsertCat, catTotaleSum]
  | cons p rest ih =>
    obtain ⟨c, st⟩ := p
    rw [upsertCat]
    split_ifs with hc
    · simp [catTotaleSum]
      ring
    · simp only [catTotaleSum, List.map_cons, List.sum_cons] at ih ⊢
      rw [ih]
      ring

lemma rollup_numero : ∀ (ts : List Trans) (cats0 : List (Str × CatStat)),
    catNumeroSum (ts.foldl
        (fun cats t => upsertCat t.categoria_suggerita t.importo t.numero_progressivo cats) cats0) =
      catNumeroSum cats0 + ts.length := by
  intro ts
  induction ts with
  | nil => intro cats0; simp
  | cons t ts ih =>
    intro cats0
    rw [List.foldl_cons, ih, upsertCat_numero]
    simp only [List.length_cons]
    omega

lemma rollup_totale : ∀ (ts : List Trans) (cats0 : List (Str × CatStat)),
    catTotaleSum (ts.foldl
        (fun cats t => upsertCat t.categoria_suggerita t.importo t.numero_progressivo cats) cats0) =
      catTotaleSum cats0 + importoSum ts := by
  intro ts
  induction ts with
  | nil => intro cats0; simp [importoSum]
  | cons t ts ih =>
    intro cats0
    rw [List.foldl_cons, ih, upsertCat_totale]
    simp only [importoSum, List.map_cons, List.sum_cons]
    ring

/-- C8. For every record set, the per-category rollups close over the
records: the rollup totals sum to the sum of all net amounts, and the
rollup counts sum to the number of records (for the empty set the
aggregator returns the empty dictionary). -/
theorem claim_C8_statistics_closure (ts : List Trans) :
    match calculate_statistics ts with
    | none => ts = []
    | some s => catTotaleSum s.categorie = importoSum ts ∧
        catNumeroSum s.categorie = ts.length := by
  by_cases hts : ts = []
  · simp [calculate_statistics, hts]
  · simp only [calculate_statistics, if_neg hts]
    refine ⟨?_, ?_⟩
    · rw [show (rollupCats ts : List (Str × CatStat)) =
          ts.foldl (fun cats t =>
            upsertCat t.categoria_suggerita t.importo t.numero_progressivo cats) [] from rfl]
      rw [rollup_totale]
      simp [catTotaleSum]
    · rw [show (rollupCats ts : List (Str × CatStat)) =
          ts.foldl (fun cats t =>
            upsertCat t.categoria_suggerita t.importo t.numero_progressivo cats) [] from rfl]
      rw [rollup_numero]
      simp [catNumeroSum]

/-- C9. The aggregator computes count, sum, average and max separately for
the inflow and outflow sub-populations; a sub-population with zero members
yields `0` for its average and max instead of raising a division error,
and the empty record set yields the empty statistics dictionary rather
than an error. -/
theorem claim_C9_subpopulation_stats (ts : List Trans) (s : Stats)
    (h : calculate_statistics ts = some s) :
    s.numero_entrate = ts.countP (fun t => decide (0 < t.importo)) ∧
    s.numero_uscite = ts.countP (fun t => decide (t.importo < 0)) ∧
    s.totale_entrate = ((ts.filter (fun t => decide (0 < t.importo))).map (fun t => t.importo)).sum ∧
    s.totale_uscite = |((ts.filter (fun t => decide (t.importo < 0))).map (fun t => t.importo)).sum| ∧
    (s.numero_entrate = 0 → s.media_entrate = 0 ∧ s.max_entrata = 0) ∧
    (s.numero_uscite = 0 → s.media_uscite = 0 ∧ s.max_uscita = 0) ∧
    calculate_statistics ([] : List Trans) = none := by
  have hts : ts ≠ [] := by
    rintro rfl
    simp [calculate_statistics] at h
  simp only [calculate_statistics, if_neg hts] at h
  obtain rfl := (Option.some.inj h).symm
  refine ⟨rfl, rfl, rfl, rfl, ?_, ?_, by simp [calculate_statistics]⟩
  · intro h0
    dsimp only at h0 ⊢
    rw [h0]
    simp
  · intro h0
    dsimp only at h0 ⊢
    rw [h0]
    simp

/-- Concrete outflow-only record for the C9 witness. -/
def recC9 : Trans :=
  { data_transazione := some ⟨2024, 1, 1⟩
    data_valuta := some ⟨2024, 1, 1⟩
    importo_uscita := some 5
    importo_entrata := none
    importo := -5
    descrizione := "X".toList
    tipo_movimento := "USCITA".toList
    pagina := 1
    categoria_suggerita := "Altro".toList
    numero_progressivo := 1 }

/-- Witness for C9: a one-record set with an empty inflow sub-population
yields average and max `0` for the inflow side. -/
theorem claim_C9_subpopulation_stats_witness :
    (calculate_statistics [recC9]).map (fun s => (s.media_entrate, s.max_entrata)) =
      some (0, 0) := by
  rcases hcalc : calculate_statistics [recC9] with _ | s
  · simp [calculate_statistics] at hcalc
  · have h9 := claim_C9_subpopulation_stats [recC9] s hcalc
    have hne : s.numero_entrate = 0 := by
      rw [h9.1]
      decide
    obtain ⟨hm, hx⟩ := h9.2.2.2.2.1 hne
    simp [Option.map, hm, hx]

end BPER
